import Mathlib

set_option maxRecDepth 100000

/-!
Shallow embedding of the tuby repository's markdown renderer
(`parseMarkdownToHtml` in `src/components/VideoAnalyzer.tsx`), the UI event
handlers of the same component, and the sources section of
`analyzeTextContent` (`src/unnamed/part_000`, the Gemini service module).

Strings are modelled as `List Char`.  JavaScript regex `replace` passes are
modelled as left-to-right scanners over the input list; where the scanner is
not structurally recursive it takes a fuel argument that is always
instantiated with more fuel than the input length, so every definition
reduces by `rfl`/`decide`.
-/

namespace Tuby

/-- Coerce a string literal to the `List Char` representation. -/
def chars (s : String) : List Char := s.data

/-- JS `\s` (whitespace class), restricted to the ASCII range that the
repository's inputs use. -/
def isWs (c : Char) : Bool :=
  c = ' ' || c = '\t' || c = '\n' || c = '\r' || c = '\x0b' || c = '\x0c'

/-- JS `.` in a regex without the `s` flag: any char except line terminators. -/
def dotChar (c : Char) : Bool :=
  !(c = '\n' || c = '\r' || c = '\u2028' || c = '\u2029')

/-- `p` is a prefix of `s` (char-exact). -/
def strHasPrefix : List Char → List Char → Bool
  | _, [] => true
  | [], _ :: _ => false
  | c :: cs, d :: ds => c = d && strHasPrefix cs ds

/-- `pat` occurs somewhere in `s` as a contiguous substring. -/
def containsSubstr : List Char → List Char → Bool
  | s, pat =>
    if strHasPrefix s pat then true
    else match s with
      | [] => false
      | _ :: rest => containsSubstr rest pat

/-- Number of positions of `s` at which `pat` starts. -/
def countOcc : List Char → List Char → Nat
  | [], _ => 0
  | s@(_ :: rest), pat => (if strHasPrefix s pat then 1 else 0) + countOcc rest pat

/-- JS `String.prototype.trim`. -/
def trim (s : List Char) : List Char :=
  ((s.dropWhile isWs).reverse.dropWhile isWs).reverse

/-- Concatenation of a list of strings (JS `.join('')`). -/
def listJoin : List (List Char) → List Char
  | [] => []
  | x :: xs => x ++ listJoin xs

/-- JS `.join(sep)`. -/
def joinSep (sep : List Char) : List (List Char) → List Char
  | [] => []
  | [x] => x
  | x :: xs => x ++ sep ++ joinSep sep xs

/-! ### Block segmenter

`markdown.replace(/```markdown\n|```/g, '').trim().split(/(\r?\n){2,}/)`.
The global fence replacement tries the alternative ```` ```markdown\n ````
before ```` ``` ```` at every position; the split regex contains a capture
group, so JS splices the captured last `\r?\n` repetition of every separator
into the result array. -/

/-- One scanning pass of `/```markdown\n|```/g → ''`, fueled. -/
def removeFencesF : Nat → List Char → List Char
  | 0, s => s
  | _ + 1, [] => []
  | fuel + 1, s@(c :: rest) =>
    if strHasPrefix s (chars "```markdown\n") then
      removeFencesF fuel (s.drop 12)
    else if strHasPrefix s (chars "```") then
      removeFencesF fuel (s.drop 3)
    else c :: removeFencesF fuel rest

def removeFences (s : List Char) : List Char := removeFencesF (s.length + 1) s

/-- Greedy repetitions of `\r?\n` starting at the head of `s`:
the list of matched repetitions and the remainder.  A lone `\r` not
followed by `\n` is not a repetition. -/
def takeNlReps : List Char → List (List Char) × List Char
  | [] => ([], [])
  | c :: rest =>
    if c = '\n' then
      let p := takeNlReps rest
      (['\n'] :: p.1, p.2)
    else if c = '\r' then
      match rest with
      | '\n' :: rest2 =>
        let p := takeNlReps rest2
        (['\r', '\n'] :: p.1, p.2)
      | _ => ([], c :: rest)
    else ([], c :: rest)

/-- Last element of a non-empty list of repetitions (the capture of the
last `(\r?\n)` iteration). -/
def lastRep : List (List Char) → List Char
  | [] => []
  | [x] => x
  | _ :: xs => lastRep xs

/-- JS `split(/(\r?\n){2,}/)`, fueled: pieces interleaved with the captured
last newline of each separator. -/
def splitBlocksF : Nat → List Char → List Char → List (List Char)
  | 0, acc, s => [acc.reverse ++ s]
  | _ + 1, acc, [] => [acc.reverse]
  | fuel + 1, acc, s@(c :: rest) =>
    let p := takeNlReps s
    if 2 ≤ p.1.length then
      acc.reverse :: lastRep p.1 :: splitBlocksF fuel [] p.2
    else
      splitBlocksF fuel (c :: acc) rest

def splitBlocks (s : List Char) : List (List Char) := splitBlocksF (s.length + 1) [] s

/-- A char that is neither `\n` nor `\r` (the chars the block splitter
reacts to). -/
def noNl (c : Char) : Bool := !(c = '\n' || c = '\r')

/-- The cleaned text: all fence markers removed globally, then trimmed. -/
def cleanOf (md : List Char) : List Char := trim (removeFences md)

/-- The block sequence handed to the per-block renderer. -/
def blocksOf (md : List Char) : List (List Char) := splitBlocks (cleanOf md)

/-! ### Line and cell splitting -/

/-- JS `split(/\r?\n|\r/)`. -/
def splitLinesAux : List Char → List Char → List (List Char)
  | acc, '\r' :: '\n' :: rest => acc.reverse :: splitLinesAux [] rest
  | acc, '\n' :: rest => acc.reverse :: splitLinesAux [] rest
  | acc, '\r' :: rest => acc.reverse :: splitLinesAux [] rest
  | acc, c :: rest => splitLinesAux (c :: acc) rest
  | acc, [] => [acc.reverse]

def splitLines (s : List Char) : List (List Char) := splitLinesAux [] s

/-- JS `split('|')`. -/
def splitPipeAux : List Char → List Char → List (List Char)
  | acc, '|' :: rest => acc.reverse :: splitPipeAux [] rest
  | acc, c :: rest => splitPipeAux (c :: acc) rest
  | acc, [] => [acc.reverse]

def splitPipe (s : List Char) : List (List Char) := splitPipeAux [] s

/-! ### Inline span transformer (`processInlines`)

Four sequential global regex replaces:
1. `/\*\*(.*?)\*\*/g → '<strong>$1</strong>'`
2. `/_(.*?)_/g → '<em>$1</em>'`
3. `/\[([^\]]+)\]\(([^)]+)\)/g → '<a href="$2" …>$1</a>'`
4. `/(?<!href=")(?<!href=')https?:\/\/[^\s]+/g → '<a href="$&" …>$&</a>'`
Each pass scans its own input left to right; matches never see earlier
replacements of the same pass, and the lookbehind of pass 4 reads the
pass-4 input. -/

/-- Non-greedy `(.*?)` up to the closing delimiter `cls`: the shortest run of
dot-chars followed by `cls`, returning the run and the rest after `cls`. -/
def scanNG (cls : List Char) : List Char → Option (List Char × List Char)
  | [] => if strHasPrefix [] cls then some ([], []) else none
  | s@(c :: rest) =>
    if strHasPrefix s cls then some ([], s.drop cls.length)
    else if dotChar c then
      match scanNG cls rest with
      | some (inner, r) => some (c :: inner, r)
      | none => none
    else none

/-- Generic pass for the two delimiter regexes (`**…**` and `_…_`), fueled.
On a failed match at a position the scan advances one char, as a JS global
regex does. -/
def replaceDelimF (opn cls wrapL wrapR : List Char) : Nat → List Char → List Char
  | 0, s => s
  | _ + 1, [] => []
  | fuel + 1, s@(c :: rest) =>
    if strHasPrefix s opn then
      match scanNG cls (s.drop opn.length) with
      | some (inner, r) =>
        wrapL ++ inner ++ wrapR ++ replaceDelimF opn cls wrapL wrapR fuel r
      | none => c :: replaceDelimF opn cls wrapL wrapR fuel rest
    else c :: replaceDelimF opn cls wrapL wrapR fuel rest

def replaceStrong (s : List Char) : List Char :=
  replaceDelimF (chars "**") (chars "**") (chars "<strong>") (chars "</strong>")
    (s.length + 1) s

def replaceEm (s : List Char) : List Char :=
  replaceDelimF (chars "_") (chars "_") (chars "<em>") (chars "</em>")
    (s.length + 1) s

/-- Try `\[([^\]]+)\]\(([^)]+)\)` at the head of `s`:
`(label, url, rest)` on success. -/
def tryLink : List Char → Option (List Char × List Char × List Char)
  | '[' :: rest =>
    let label := rest.takeWhile (fun c => !(c = ']'))
    if label.isEmpty then none
    else
      match rest.drop label.length with
      | ']' :: '(' :: rest2 =>
        let url := rest2.takeWhile (fun c => !(c = ')'))
        if url.isEmpty then none
        else
          match rest2.drop url.length with
          | ')' :: rest3 => some (label, url, rest3)
          | _ => none
      | _ => none
  | _ => none

def linkWrap (label url : List Char) : List Char :=
  chars "<a href=\"" ++ url ++
  chars "\" target=\"_blank\" rel=\"noopener noreferrer\" class=\"text-blue-400 hover:underline\">" ++
  label ++ chars "</a>"

def replaceLinkF : Nat → List Char → List Char
  | 0, s => s
  | _ + 1, [] => []
  | fuel + 1, s@(c :: rest) =>
    match tryLink s with
    | some (label, url, r) => linkWrap label url ++ replaceLinkF fuel r
    | none => c :: replaceLinkF fuel rest

def replaceLink (s : List Char) : List Char := replaceLinkF (s.length + 1) s

/-- Try `(?<!href=")(?<!href=')https?:\/\/[^\s]+` at the current position;
`prevRev` is the reversed input already scanned (the lookbehind window). -/
def tryUrl (prevRev s : List Char) : Option (List Char × List Char) :=
  if strHasPrefix prevRev (chars "\"=ferh") || strHasPrefix prevRev (chars "'=ferh") then
    none
  else
    let scheme :=
      if strHasPrefix s (chars "https://") then some (s.take 8, s.drop 8)
      else if strHasPrefix s (chars "http://") then some (s.take 7, s.drop 7)
      else none
    match scheme with
    | some (sch, rest) =>
      let run := rest.takeWhile (fun c => !isWs c)
      if run.isEmpty then none else some (sch ++ run, rest.drop run.length)
    | none => none

def urlWrap (url : List Char) : List Char :=
  chars "<a href=\"" ++ url ++
  chars "\" target=\"_blank\" rel=\"noopener noreferrer\" class=\"text-blue-400 hover:underline break-all\">" ++
  url ++ chars "</a>"

def replaceUrlF : Nat → List Char → List Char → List Char
  | 0, _, s => s
  | _ + 1, _, [] => []
  | fuel + 1, prevRev, s@(c :: rest) =>
    match tryUrl prevRev s with
    | some (url, r) => urlWrap url ++ replaceUrlF fuel (url.reverse ++ prevRev) r
    | none => c :: replaceUrlF fuel (c :: prevRev) rest

def replaceUrl (s : List Char) : List Char := replaceUrlF (s.length + 1) [] s

/-- The code's `processInlines`: the four passes in source order. -/
def processInlines (t : List Char) : List Char :=
  replaceUrl (replaceLink (replaceEm (replaceStrong t)))

/-! ### Table handling -/

/-- One cell of the separator pattern after a `|`:
`\s*:?-+:?\s*\|` (deterministic, the character classes are disjoint). -/
def sepCell (s : List Char) : Bool :=
  let s1 := s.dropWhile isWs
  let s2 := match s1 with
    | ':' :: r => r
    | _ => s1
  let ds := s2.takeWhile (fun c => c = '-')
  if ds.isEmpty then false
  else
    let s3 := s2.drop ds.length
    let s4 := match s3 with
      | ':' :: r => r
      | _ => s3
    match s4.dropWhile isWs with
    | '|' :: _ => true
    | _ => false

/-- `/\|(?:\s*:?-+:?\s*\|)+/.test(row)`: somewhere in the row a `|` is
followed by at least one separator cell. -/
def sepTest : List Char → Bool
  | [] => false
  | '|' :: rest => sepCell rest || sepTest rest
  | _ :: rest => sepTest rest

/-- JS `findIndex`: `-1` when no element satisfies the predicate. -/
def findIndexInt (p : List Char → Bool) : List (List Char) → Int
  | [] => -1
  | r :: rs =>
    if p r then 0
    else
      let i := findIndexInt p rs
      if i < 0 then -1 else i + 1

/-- `trimmedBlock.split(/\r?\n|\r/).filter(row => row.trim().startsWith('|'))`. -/
def tableRowsOf (tb : List Char) : List (List Char) :=
  (splitLines tb).filter (fun r => strHasPrefix (trim r) ['|'])

def sepIdxOf (tb : List Char) : Int := findIndexInt sepTest (tableRowsOf tb)

/-- `row.split('|').slice(1, -1).map(cell => cell.trim())`. -/
def splitCells (row : List Char) : List (List Char) :=
  (((splitPipe row).drop 1).dropLast).map trim

def thOf (h : List Char) : List Char :=
  chars "<th class=\"p-3 border-b border-neutral-700 text-left font-semibold bg-neutral-800/50\">" ++
  processInlines h ++ chars "</th>"

def tdOf (c : List Char) : List Char :=
  chars "<td class=\"p-3 border-b border-neutral-800 align-top\">" ++
  processInlines c ++ chars "</td>"

/-- One body row: dropped when it has no cells or only empty cells. -/
def trOf (rowStr : List Char) : List Char :=
  let cells := splitCells rowStr
  if cells.isEmpty || cells.all List.isEmpty then []
  else chars "<tr>" ++ listJoin (cells.map tdOf) ++ chars "</tr>"

/-- The table template literal, split around `${ths}` and `${trs}`,
whitespace exactly as in the source. -/
def tableTpl1 : List Char :=
  chars "\n                    <div class=\"overflow-x-auto my-4 rounded-lg border border-neutral-800\">\n                        <table class=\"w-full text-sm\">\n                            <thead class=\"bg-neutral-800/50\">\n                                <tr>"

def tableTpl2 : List Char :=
  chars "</tr>\n                            </thead>\n                            <tbody>"

def tableTpl3 : List Char :=
  chars "</tbody>\n                        </table>\n                    </div>\n                "

/-- The table branch body, reached when `separatorIndex > 0`. -/
def tableHtml (tb : List Char) : List Char :=
  let rows := tableRowsOf tb
  let headers := splitCells (rows.headD [])
  let bodyRows := rows.drop ((sepIdxOf tb).toNat + 1)
  let ths := listJoin (headers.map thOf)
  let trs := listJoin (bodyRows.map trOf)
  tableTpl1 ++ ths ++ tableTpl2 ++ trs ++ tableTpl3

/-! ### Non-table block renderers -/

def h3Wrap (tb : List Char) : List Char :=
  chars "<h3 class=\"text-lg font-semibold my-2\">" ++ processInlines (tb.drop 4) ++ chars "</h3>"

def h2Wrap (tb : List Char) : List Char :=
  chars "<h2 class=\"text-xl font-semibold my-3 border-b border-neutral-600 pb-1\">" ++
  processInlines (tb.drop 3) ++ chars "</h2>"

def h1Wrap (tb : List Char) : List Char :=
  chars "<h1 class=\"text-2xl font-bold my-4\">" ++ processInlines (tb.drop 2) ++ chars "</h1>"

/-- `line.replace(/^>\s?/, '')`: a leading `>` plus at most one whitespace
char is removed; other lines are unchanged. -/
def stripQuoteMark : List Char → List Char
  | '>' :: c :: rest => if isWs c then rest else c :: rest
  | '>' :: [] => []
  | s => s

def quoteHtml (tb : List Char) : List Char :=
  let quoteContent := joinSep [' '] ((splitLines tb).map stripQuoteMark)
  chars "<blockquote class=\"border-l-4 border-neutral-600 pl-4 my-4 italic text-neutral-400\">" ++
  processInlines quoteContent ++ chars "</blockquote>"

/-- `/^(\*|-)\s/` against the trimmed block. -/
def ulTest : List Char → Bool
  | [] => false
  | c :: rest =>
    (c = '*' || c = '-') &&
    (match rest with
     | d :: _ => isWs d
     | [] => false)

/-- `item.replace(/^\s*[-*]\s*/, '')`. -/
def stripUlMark (item : List Char) : List Char :=
  let s1 := item.dropWhile isWs
  match s1 with
  | c :: rest => if c = '-' || c = '*' then rest.dropWhile isWs else item
  | [] => item

def liOf (content : List Char) : List Char :=
  chars "<li class=\"pb-1\">" ++ processInlines content ++ chars "</li>"

def ulHtml (tb : List Char) : List Char :=
  chars "<ul class=\"list-disc list-inside space-y-1 my-2\">" ++
  listJoin ((splitLines tb).map (fun item => liOf (stripUlMark item))) ++ chars "</ul>"

/-- `/^\d+\.\s/` against the trimmed block. -/
def olTest (tb : List Char) : Bool :=
  let ds := tb.takeWhile Char.isDigit
  if ds.isEmpty then false
  else
    match tb.drop ds.length with
    | '.' :: c :: _ => isWs c
    | _ => false

/-- `item.replace(/^\s*\d+\.\s*/, '')`. -/
def stripOlMark (item : List Char) : List Char :=
  let s1 := item.dropWhile isWs
  let ds := s1.takeWhile Char.isDigit
  if ds.isEmpty then item
  else
    match s1.drop ds.length with
    | '.' :: rest => rest.dropWhile isWs
    | _ => item

def olHtml (tb : List Char) : List Char :=
  chars "<ol class=\"list-decimal list-inside space-y-1 my-2\">" ++
  listJoin ((splitLines tb).map (fun item => liOf (stripOlMark item))) ++ chars "</ol>"

/-- `/\n/g → '<br />'` in the paragraph branch. -/
def nlToBr : List Char → List Char
  | [] => []
  | '\n' :: rest => chars "<br />" ++ nlToBr rest
  | c :: rest => c :: nlToBr rest

def paragraphHtml (tb : List Char) : List Char :=
  chars "<p>" ++ nlToBr (processInlines tb) ++ chars "</p>"

/-! ### Block classifier -/

/-- The classifier chain after the table branch has been passed over. -/
def renderNonTable (tb : List Char) : List Char :=
  if strHasPrefix tb (chars "### ") then h3Wrap tb
  else if strHasPrefix tb (chars "## ") then h2Wrap tb
  else if strHasPrefix tb (chars "# ") then h1Wrap tb
  else if strHasPrefix tb (chars "> ") then quoteHtml tb
  else if ulTest tb then ulHtml tb
  else if olTest tb then olHtml tb
  else paragraphHtml tb

/-- Rendering of an already-trimmed block: empty check, table attempt
(taken only when `separatorIndex > 0`), then the classifier chain. -/
def renderTrimmed (tb : List Char) : List Char :=
  if tb.isEmpty then []
  else if strHasPrefix tb ['|'] && 0 < sepIdxOf tb then tableHtml tb
  else renderNonTable tb

/-- Rendering of one raw block: `const trimmedBlock = block.trim()` first. -/
def renderBlock (block : List Char) : List Char :=
  renderTrimmed (trim block)

/-- `parseMarkdownToHtml` on char lists: segment, render each block,
join with `''`. -/
def renderAll (md : List Char) : List Char :=
  listJoin ((blocksOf md).map renderBlock)

/-- The component's `parseMarkdownToHtml`. -/
def parseMarkdownToHtml (markdown : String) : String :=
  ⟨renderAll markdown.data⟩

/-! ### Sources section of `analyzeTextContent` (geminiService) -/

/-- A grounding chunk's `web` field: `title` and `uri` may each be absent. -/
structure WebInfo where
  title : Option (List Char)
  uri : Option (List Char)
deriving DecidableEq, Repr

/-- A grounding chunk (`chunk.web` may be absent). -/
structure GroundingChunk where
  web : Option WebInfo
deriving DecidableEq, Repr

/-- `web?.uri && web.uri.trim() !== ''`: the chunk has a web object whose
`uri` is present, truthy (non-empty) and not whitespace-only. -/
def uriOk : Option WebInfo → Bool
  | none => false
  | some w =>
    match w.uri with
    | none => false
    | some u => !u.isEmpty && !(trim u).isEmpty

/-- `` `[${web.title || web.uri}](${web.uri})` ``: a falsy (absent or empty)
title falls back to the uri. -/
def entryOf (w : WebInfo) : List Char :=
  let t :=
    match w.title with
    | some t => if t.isEmpty then w.uri.getD [] else t
    | none => w.uri.getD []
  chars "[" ++ t ++ chars "](" ++ w.uri.getD [] ++ chars ")"

/-- `groundingChunks.map(c => c.web).filter(…).map(…)`. -/
def sourcesOf (chunksList : List GroundingChunk) : List (List Char) :=
  (((chunksList.map GroundingChunk.web).filter uriOk).map
    (fun w => entryOf (w.getD ⟨none, none⟩)))

/-- `[...new Set(sources)]`: first-occurrence order deduplication. -/
def dedupAux (seen : List (List Char)) : List (List Char) → List (List Char)
  | [] => []
  | x :: xs =>
    if x ∈ seen then dedupAux seen xs
    else x :: dedupAux (x :: seen) xs

def uniqueSources (chunksList : List GroundingChunk) : List (List Char) :=
  dedupAux [] (sourcesOf chunksList)

/-- The tail of `analyzeTextContent`: append the Sources section when any
citation survives the filter. -/
def appendSources (reportText : List Char) (chunksList : List GroundingChunk) : List Char :=
  if !chunksList.isEmpty then
    let sources := sourcesOf chunksList
    if !sources.isEmpty then
      reportText ++ chars "\n\n## Sources\n" ++ joinSep ['\n'] (uniqueSources chunksList)
    else reportText
  else reportText

/-! ### Component state and handlers (`VideoAnalyzer`) -/

/-- A selected file: only the fields the handlers read. -/
structure VFile where
  name : List Char
  ftype : List Char
deriving DecidableEq, Repr

inductive LoadKind
  | summary
  | article
deriving DecidableEq, Repr

/-- The component's `useState` slots. -/
structure AppState where
  mainInput : List Char
  videoFile : Option VFile
  summary : List Char
  article : List Char
  isLoading : Option LoadKind
  error : List Char
deriving DecidableEq, Repr

/-- Outcome of a provider call: `.ok text` or a thrown error. -/
abbrev CallOutcome := Except Unit (List Char)

def unsupportedFileMsg : List Char := chars "Please select a valid video file."

def noInputMsg : List Char :=
  chars "Please paste a transcript or upload a video file to analyze."

def reportFailMsg : List Char :=
  chars "Failed to generate the report. Please check the console for details."

def noReportMsg : List Char := chars "Please generate a report first."

def articleFailMsg : List Char :=
  chars "Failed to generate the article. Please check the console for details."

/-- `handleFileChange` with `event.target.files?.[0]` passed explicitly. -/
def handleFileChange (s : AppState) (file : Option VFile) : AppState :=
  match file with
  | none => s
  | some f =>
    if strHasPrefix f.ftype (chars "video/") then
      { s with videoFile := some f, mainInput := [], error := [] }
    else
      { s with error := unsupportedFileMsg, videoFile := none }

/-- `handleGenerateReport`'s input validation guard. -/
def reportValidationFails (s : AppState) : Bool :=
  s.videoFile.isNone && (trim s.mainInput).isEmpty

/-- State after the synchronous prefix of `handleGenerateReport`
(the setters issued before the provider call is awaited). -/
def reportRequestState (s : AppState) : AppState :=
  { s with error := [], isLoading := some .summary, summary := [], article := [] }

/-- `handleGenerateReport`, with the awaited provider call's outcome as a
parameter (`analyzeVideo` or `analyzeTextContent`, both modelled by their
result). -/
def handleGenerateReport (s : AppState) (call : CallOutcome) : AppState :=
  if reportValidationFails s then { s with error := noInputMsg }
  else
    let s1 := reportRequestState s
    match call with
    | .ok result => { s1 with summary := result, isLoading := none }
    | .error _ => { s1 with error := reportFailMsg, isLoading := none }

/-- State after the synchronous prefix of `handleSubmitArticle`. -/
def articleRequestState (s : AppState) : AppState :=
  { s with error := [], isLoading := some .article, article := [] }

/-- `handleSubmitArticle`, with the awaited `generateArticle` outcome as a
parameter. -/
def handleSubmitArticle (s : AppState) (call : CallOutcome) : AppState :=
  if s.summary.isEmpty then { s with error := noReportMsg }
  else
    let s1 := articleRequestState s
    match call with
    | .ok result => { s1 with article := result, isLoading := none }
    | .error _ => { s1 with error := articleFailMsg, isLoading := none }

/-! ### Spec-side definitions, for comparison with the code

These two follow the words of the specification / claims, not the code, and
exist only to state divergences. -/

/-- Modelled from the spec's words for the separator pattern, one cell:
after trimming, only dashes with an optional leading and trailing colon. -/
def specSepCellOnly (cell : List Char) : Bool :=
  let c := trim cell
  let c1 := match c with
    | ':' :: r => r
    | _ => c
  let ds := c1.takeWhile (fun x => x = '-')
  !ds.isEmpty &&
  (match c1.drop ds.length with
   | [] => true
   | [':'] => true
   | _ => false)

/-- Modelled from the spec's words: a row is a separator row when it has at
least one cell and all its cells consist only of dashes and optional
colons.  Compare with the code's unanchored `sepTest`. -/
def specSeparatorRow (row : List Char) : Bool :=
  let cells := splitCells row
  !cells.isEmpty && cells.all specSepCellOnly

/-- Modelled from the spec's words for the fence-stripping step: the marker
is removed only when the entire text is wrapped in a fence. -/
def specCleanMarkdown (md : List Char) : List Char :=
  let t := trim md
  if strHasPrefix t (chars "```markdown\n") &&
      strHasPrefix t.reverse (chars "```").reverse then
    trim ((t.drop 12).take (t.length - 12 - 3))
  else if strHasPrefix t (chars "```") &&
      strHasPrefix t.reverse (chars "```").reverse && 6 ≤ t.length then
    trim ((t.drop 3).take (t.length - 6))
  else t

end Tuby


namespace Tuby

/-! ### Helper lemmas -/

theorem strHasPrefix_cons_iff {s : List Char} {d : Char} {ds : List Char} :
    strHasPrefix s (d :: ds) = true ↔ ∃ t, s = d :: t ∧ strHasPrefix t ds = true := by
  cases s with
  | nil => simp [strHasPrefix]
  | cons c cs =>
    simp only [strHasPrefix, Bool.and_eq_true, decide_eq_true_eq]
    constructor
    · rintro ⟨rfl, h⟩; exact ⟨cs, rfl, h⟩
    · rintro ⟨t, ht, h⟩; cases ht; exact ⟨rfl, h⟩

theorem strHasPrefix_cons_false {c d : Char} (cs ds : List Char) (h : c ≠ d) :
    strHasPrefix (c :: cs) (d :: ds) = false := by
  simp [strHasPrefix, h]

theorem findIndexInt_neg (p : List Char → Bool) :
    ∀ l : List (List Char), (∀ r ∈ l, p r = false) → findIndexInt p l = -1 := by
  intro l
  induction l with
  | nil => intro _; rfl
  | cons r rs ih =>
    intro h
    simp only [findIndexInt, h r (List.mem_cons_self r rs)]
    rw [ih (fun x hx => h x (List.mem_cons_of_mem r hx))]
    norm_num

/-- A block whose trimmed text starts with `|` satisfies none of the
heading, quote or list tests, so the classifier chain ends at the
paragraph default. -/
theorem renderNonTable_pipe (rest : List Char) :
    renderNonTable ('|' :: rest) = paragraphHtml ('|' :: rest) := by
  have e3 : chars "### " = '#' :: '#' :: '#' :: [' '] := rfl
  have e2 : chars "## " = '#' :: '#' :: [' '] := rfl
  have e1 : chars "# " = '#' :: [' '] := rfl
  have eq : chars "> " = '>' :: [' '] := rfl
  simp only [renderNonTable, e3, e2, e1, eq,
    strHasPrefix_cons_false _ _ (by decide : ('|' : Char) ≠ '#'),
    strHasPrefix_cons_false _ _ (by decide : ('|' : Char) ≠ '>'),
    Bool.false_eq_true, if_false]
  have hu : ulTest ('|' :: rest) = false := by
    simp [ulTest]
  have ho : olTest ('|' :: rest) = false := by
    simp [olTest, List.takeWhile]
  simp [hu, ho]

theorem renderTrimmed_pipe_no_sep (rest : List Char)
    (hidx : sepIdxOf ('|' :: rest) = -1) :
    renderTrimmed ('|' :: rest) = paragraphHtml ('|' :: rest) := by
  simp only [renderTrimmed, hidx, List.isEmpty_cons, Bool.false_eq_true, if_false]
  norm_num [renderNonTable_pipe]

/-! ### C1 -/

/-- C1 (amended): for every block whose trimmed text begins with `|` and in
which no collected row matches the code's separator test (the unanchored
regex `/\|(?:\s*:?-+:?\s*\|)+/`), `parseMarkdownToHtml` renders the block
through the paragraph branch, never the table branch. -/
theorem c1_pipe_without_separator_is_paragraph (b : List Char)
    (hpipe : strHasPrefix (trim b) ['|'] = true)
    (hsep : (tableRowsOf (trim b)).all (fun r => !sepTest r) = true) :
    renderBlock b = paragraphHtml (trim b) := by
  obtain ⟨t, ht, -⟩ := strHasPrefix_cons_iff.mp hpipe
  have hsep' : ∀ r ∈ tableRowsOf (trim b), sepTest r = false := by
    intro r hr
    have := List.all_eq_true.mp hsep r hr
    simpa using this
  have hidx : sepIdxOf (trim b) = -1 := findIndexInt_neg _ _ hsep'
  rw [renderBlock, ht]
  exact renderTrimmed_pipe_no_sep t (ht ▸ hidx)

/-- C1 counterexample: the block `| A | B |` + `| x |---| y |` has no row
whose cells consist only of dashes and optional colons (the claim's
separator reading), yet the code's unanchored separator test fires on the
embedded `|---|` and the block is rendered as a table, not a paragraph. -/
theorem c1_counterexample :
    strHasPrefix (trim (chars "| A | B |\n| x |---| y |")) ['|'] = true ∧
    (tableRowsOf (trim (chars "| A | B |\n| x |---| y |"))).all
      (fun r => !specSeparatorRow r) = true ∧
    renderBlock (chars "| A | B |\n| x |---| y |") ≠
      paragraphHtml (trim (chars "| A | B |\n| x |---| y |")) ∧
    containsSubstr (renderBlock (chars "| A | B |\n| x |---| y |"))
      (chars "<table") = true := by
  refine ⟨by decide, by decide, ?_, by decide⟩
  decide

/-- C1 witness: the amended theorem applied to the concrete pipe-led block
`| a | b` that has no separator row. -/
theorem c1_witness :
    strHasPrefix (trim (chars "| a | b")) ['|'] = true ∧
    (tableRowsOf (trim (chars "| a | b"))).all (fun r => !sepTest r) = true ∧
    renderBlock (chars "| a | b") = paragraphHtml (trim (chars "| a | b")) :=
  ⟨by decide, by decide,
    c1_pipe_without_separator_is_paragraph _ (by decide) (by decide)⟩

/-! ### C2 -/

/-- C2: on the block `| A | B |` / `|---|---|` / `| x | y |` the renderer
finds the separator at row index 1, reads header cells `A`, `B` from row 0,
exactly one body row with cells `x`, `y` in order, and emits the table
markup with those two header cells and that single body row. -/
theorem c2_table_structure :
    sepIdxOf (trim (chars "| A | B |\n|---|---|\n| x | y |")) = 1 ∧
    splitCells ((tableRowsOf (trim (chars "| A | B |\n|---|---|\n| x | y |"))).headD [])
      = [chars "A", chars "B"] ∧
    ((tableRowsOf (trim (chars "| A | B |\n|---|---|\n| x | y |"))).drop 2).map splitCells
      = [[chars "x", chars "y"]] ∧
    renderBlock (chars "| A | B |\n|---|---|\n| x | y |") =
      chars "\n                    <div class=\"overflow-x-auto my-4 rounded-lg border border-neutral-800\">\n                        <table class=\"w-full text-sm\">\n                            <thead class=\"bg-neutral-800/50\">\n                                <tr><th class=\"p-3 border-b border-neutral-700 text-left font-semibold bg-neutral-800/50\">A</th><th class=\"p-3 border-b border-neutral-700 text-left font-semibold bg-neutral-800/50\">B</th></tr>\n                            </thead>\n                            <tbody><tr><td class=\"p-3 border-b border-neutral-800 align-top\">x</td><td class=\"p-3 border-b border-neutral-800 align-top\">y</td></tr></tbody>\n                        </table>\n                    </div>\n                " ∧
    countOcc (renderBlock (chars "| A | B |\n|---|---|\n| x | y |")) (chars "<tr>") = 2 ∧
    countOcc (renderBlock (chars "| A | B |\n|---|---|\n| x | y |")) (chars "<td") = 2 := by
  refine ⟨by decide, by decide, by decide, by decide, by decide, by decide⟩

/-! ### C4 -/

/-- C4: `processInlines` on `[x](http://a.com) http://b.com` yields exactly
two hyperlink elements, one targeting `http://a.com` (from the markdown
link) and one targeting `http://b.com` (from the bare URL), and the URL
inside the generated `href` attribute is not wrapped a second time. -/
theorem c4_two_links :
    processInlines (chars "[x](http://a.com) http://b.com") =
      chars "<a href=\"http://a.com\" target=\"_blank\" rel=\"noopener noreferrer\" class=\"text-blue-400 hover:underline\">x</a> <a href=\"http://b.com\" target=\"_blank\" rel=\"noopener noreferrer\" class=\"text-blue-400 hover:underline break-all\">http://b.com</a>" ∧
    countOcc (processInlines (chars "[x](http://a.com) http://b.com"))
      (chars "<a href=") = 2 ∧
    countOcc (processInlines (chars "[x](http://a.com) http://b.com"))
      (chars "href=\"http://a.com\"") = 1 ∧
    countOcc (processInlines (chars "[x](http://a.com) http://b.com"))
      (chars "href=\"http://b.com\"") = 1 := by
  refine ⟨by decide, by decide, by decide, by decide⟩

/-! ### C5 -/

/-- C5 (amended): every block whose trimmed text starts with `> ` (and is
therefore not classified as table or heading) is rendered as a blockquote
whose content is the block's lines with a leading `>` plus at most one
whitespace char stripped from each line, joined with single spaces, with
inline transformation applied. -/
theorem c5_quote_block (b : List Char)
    (hq : strHasPrefix (trim b) (chars "> ") = true) :
    renderBlock b = quoteHtml (trim b) := by
  have eq : chars "> " = '>' :: [' '] := rfl
  rw [eq] at hq
  obtain ⟨t, ht, h2⟩ := strHasPrefix_cons_iff.mp hq
  obtain ⟨u, hu, -⟩ := strHasPrefix_cons_iff.mp h2
  subst hu
  rw [renderBlock, ht]
  have hpipe : strHasPrefix ('>' :: ' ' :: u) ['|'] = false :=
    strHasPrefix_cons_false _ _ (by decide)
  simp only [renderTrimmed, hpipe, List.isEmpty_cons, Bool.false_and,
    Bool.false_eq_true, if_false]
  have e3 : chars "### " = '#' :: '#' :: '#' :: [' '] := rfl
  have e2 : chars "## " = '#' :: '#' :: [' '] := rfl
  have e1 : chars "# " = '#' :: [' '] := rfl
  simp only [renderNonTable, e3, e2, e1, eq,
    strHasPrefix_cons_false _ _ (by decide : ('>' : Char) ≠ '#'),
    Bool.false_eq_true, if_false]
  have hq2 : strHasPrefix ('>' :: ' ' :: u) ('>' :: [' ']) = true := by
    simp [strHasPrefix]
  simp [hq2]

/-- C5 counterexample: in the block `>a` + `>b` every line starts with `>`,
yet because the first line does not start with `> ` the code renders a
paragraph, not a quoted block. -/
theorem c5_counterexample :
    (splitLines (trim (chars ">a\n>b"))).all (fun l => strHasPrefix l ['>']) = true ∧
    renderBlock (chars ">a\n>b") = chars "<p>>a<br />>b</p>" ∧
    renderBlock (chars ">a\n>b") ≠ quoteHtml (trim (chars ">a\n>b")) := by
  refine ⟨by decide, by decide, by decide⟩

/-- C5 witness: the amended theorem applied to the concrete block
`> hi` / `> there`. -/
theorem c5_witness :
    strHasPrefix (trim (chars "> hi\n> there")) (chars "> ") = true ∧
    renderBlock (chars "> hi\n> there") = quoteHtml (trim (chars "> hi\n> there")) :=
  ⟨by decide, c5_quote_block _ (by decide)⟩

/-! ### C3 -/

/-- C3 (amended): the segmentation step removes every occurrence of
`` ```markdown\n `` or `` ``` `` anywhere in the text (not only when the
whole text is wrapped), trims, and splits on runs of two or more newlines;
the split also emits each separator's captured last newline as an element,
and any element that trims to empty contributes nothing to the rendering. -/
theorem c3_segmentation :
    (∀ md, blocksOf md = splitBlocks (trim (removeFences md))) ∧
    (∀ md b, b ∈ blocksOf md → trim b = [] → renderBlock b = []) ∧
    blocksOf (chars "a ``` b") = [chars "a  b"] := by
  refine ⟨fun md => rfl, ?_, by decide⟩
  intro md b _ htrim
  rw [renderBlock, htrim]
  rfl

/-- C3 counterexample: the text `a ``` b` is not wrapped in a code fence,
yet the fence marker is stripped (global replace); and the block sequence
of `x` + blank line + `y` contains the captured separator newline, an
element that is empty after trimming, so empty blocks are not filtered out
of the sequence itself. -/
theorem c3_counterexample :
    containsSubstr (chars "a ``` b") (chars "```") = true ∧
    strHasPrefix (trim (chars "a ``` b")) (chars "```") = false ∧
    blocksOf (chars "a ``` b") = [chars "a  b"] ∧
    blocksOf (chars "a ``` b") ≠ splitBlocks (specCleanMarkdown (chars "a ``` b")) ∧
    blocksOf (chars "x\n\ny") = [chars "x", chars "\n", chars "y"] ∧
    (blocksOf (chars "x\n\ny")).all (fun b => !(trim b).isEmpty) = false := by
  refine ⟨by decide, by decide, by decide, by decide, by decide, by decide⟩

/-- C3 witness: the amended theorem applied to the captured separator
newline of the concrete input `x` + blank line + `y`. -/
theorem c3_witness :
    (chars "\n") ∈ blocksOf (chars "x\n\ny") ∧
    trim (chars "\n") = [] ∧
    renderBlock (chars "\n") = [] :=
  ⟨by decide, by decide,
    c3_segmentation.2.1 (chars "x\n\ny") (chars "\n") (by decide) (by decide)⟩

/-! ### C6 -/

theorem mem_dedupAux {x : List Char} :
    ∀ {l seen : List (List Char)}, x ∈ dedupAux seen l → x ∈ l ∧ x ∉ seen := by
  intro l
  induction l with
  | nil => intro seen h; simp [dedupAux] at h
  | cons y ys ih =>
    intro seen h
    simp only [dedupAux] at h
    by_cases hy : y ∈ seen
    · rw [if_pos hy] at h
      obtain ⟨h1, h2⟩ := ih h
      exact ⟨List.mem_cons_of_mem _ h1, h2⟩
    · rw [if_neg hy] at h
      rcases List.mem_cons.mp h with rfl | h2
      · exact ⟨List.mem_cons_self _ _, hy⟩
      · obtain ⟨h3, h4⟩ := ih h2
        refine ⟨List.mem_cons_of_mem _ h3, fun hx => h4 (List.mem_cons_of_mem _ hx)⟩

theorem dedupAux_nodup : ∀ (l seen : List (List Char)), (dedupAux seen l).Nodup := by
  intro l
  induction l with
  | nil => intro seen; simp [dedupAux]
  | cons y ys ih =>
    intro seen
    simp only [dedupAux]
    by_cases hy : y ∈ seen
    · rw [if_pos hy]; exact ih _
    · rw [if_neg hy]
      refine List.nodup_cons.mpr ⟨fun hmem => ?_, ih _⟩
      exact (mem_dedupAux hmem).2 (List.mem_cons_self _ _)

/-- C6: the deduplicated sources list never contains a duplicate entry and
only contains entries built from citations that survived the empty-URI
filter; on the citation list `A/u1`, `A/u1`, `B/(empty)` the appended list
is exactly `[A](u1)` and the report gains exactly that one line. -/
theorem c6_sources_dedup :
    (∀ cl : List GroundingChunk, (uniqueSources cl).Nodup) ∧
    (∀ cl : List GroundingChunk, uniqueSources cl ⊆ sourcesOf cl) ∧
    uniqueSources
      [⟨some ⟨some (chars "A"), some (chars "u1")⟩⟩,
       ⟨some ⟨some (chars "A"), some (chars "u1")⟩⟩,
       ⟨some ⟨some (chars "B"), some []⟩⟩] = [chars "[A](u1)"] ∧
    appendSources (chars "R")
      [⟨some ⟨some (chars "A"), some (chars "u1")⟩⟩,
       ⟨some ⟨some (chars "A"), some (chars "u1")⟩⟩,
       ⟨some ⟨some (chars "B"), some []⟩⟩] = chars "R\n\n## Sources\n[A](u1)" := by
  refine ⟨fun cl => dedupAux_nodup _ _, fun cl x hx => (mem_dedupAux hx).1,
    by decide, by decide⟩

/-- C6 witness: the universal parts applied to the concrete citation list
of the claim. -/
theorem c6_witness :
    (uniqueSources
      [⟨some ⟨some (chars "A"), some (chars "u1")⟩⟩,
       ⟨some ⟨some (chars "A"), some (chars "u1")⟩⟩,
       ⟨some ⟨some (chars "B"), some []⟩⟩]).Nodup :=
  c6_sources_dedup.1 _

/-! ### C7 -/

/-- C7: when a report or article request that passed input validation
fails, the corresponding result slot (summary for a report, article for an
article) is left empty and the loading indicator is cleared. -/
theorem c7_failure_clears (s : AppState) :
    (reportValidationFails s = false →
      (handleGenerateReport s (Except.error ())).summary = [] ∧
      (handleGenerateReport s (Except.error ())).isLoading = none) ∧
    (s.summary.isEmpty = false →
      (handleSubmitArticle s (Except.error ())).article = [] ∧
      (handleSubmitArticle s (Except.error ())).isLoading = none) := by
  constructor
  · intro h
    simp [handleGenerateReport, h, reportRequestState]
  · intro h
    simp [handleSubmitArticle, h, articleRequestState]

/-- C7 witness: both failure cases, on the concrete state with pasted text
`t`, summary `S` and article `A`. -/
theorem c7_witness :
    reportValidationFails ⟨chars "t", none, chars "S", chars "A", none, []⟩ = false ∧
    (handleGenerateReport ⟨chars "t", none, chars "S", chars "A", none, []⟩
      (Except.error ())).summary = [] ∧
    (handleGenerateReport ⟨chars "t", none, chars "S", chars "A", none, []⟩
      (Except.error ())).isLoading = none ∧
    (handleSubmitArticle ⟨chars "t", none, chars "S", chars "A", none, []⟩
      (Except.error ())).article = [] ∧
    (handleSubmitArticle ⟨chars "t", none, chars "S", chars "A", none, []⟩
      (Except.error ())).isLoading = none :=
  ⟨by decide,
   ((c7_failure_clears _).1 (by decide)).1,
   ((c7_failure_clears _).1 (by decide)).2,
   ((c7_failure_clears _).2 (by decide)).1,
   ((c7_failure_clears _).2 (by decide)).2⟩

/-! ### C9 -/

/-- C9: whenever `handleGenerateReport` passes input validation, both the
summary and the article slot are cleared before the request is issued, and
the article slot is still empty after the handler completes, whatever the
outcome of the request. -/
theorem c9_report_clears_article (s : AppState)
    (h : reportValidationFails s = false) :
    (reportRequestState s).summary = [] ∧
    (reportRequestState s).article = [] ∧
    (∀ call : CallOutcome, (handleGenerateReport s call).article = []) := by
  refine ⟨rfl, rfl, fun call => ?_⟩
  cases call with
  | ok r => simp [handleGenerateReport, h, reportRequestState]
  | error e => simp [handleGenerateReport, h, reportRequestState]

/-- C9 witness: a state with a previously displayed article `OLD`; after a
failing regeneration the article slot is empty. -/
theorem c9_witness :
    reportValidationFails ⟨chars "t", none, chars "S", chars "OLD", none, []⟩ = false ∧
    (handleGenerateReport ⟨chars "t", none, chars "S", chars "OLD", none, []⟩
      (Except.error ())).article = [] :=
  ⟨by decide,
   (c9_report_clears_article _ (by decide)).2.2 (Except.error ())⟩

/-! ### C10 -/

/-- C10: selecting a file whose type starts with `video/` stores the file,
clears the pasted text and clears any prior error; selecting a non-video
file sets the error message and resets the stored video file to `none`
while leaving the pasted text (and every other slot) unchanged. -/
theorem c10_file_selection (s : AppState) (f : VFile) :
    (strHasPrefix f.ftype (chars "video/") = true →
      handleFileChange s (some f) =
        { s with videoFile := some f, mainInput := [], error := [] }) ∧
    (strHasPrefix f.ftype (chars "video/") = false →
      handleFileChange s (some f) =
        { s with error := unsupportedFileMsg, videoFile := none }) := by
  constructor <;> intro h <;> simp [handleFileChange, h]

/-! ### C8 -/

theorem takeNlReps_cons_other {c : Char} (rest : List Char)
    (h1 : c ≠ '\n') (h2 : c ≠ '\r') :
    takeNlReps (c :: rest) = ([], c :: rest) := by
  rw [takeNlReps.eq_def]
  simp [h1, h2]

theorem takeNlReps_noNl : ∀ {s : List Char}, s.all noNl = true → takeNlReps s = ([], s) := by
  intro s hs
  cases s with
  | nil => rfl
  | cons c rest =>
    have hc : noNl c = true := (List.all_eq_true.mp hs) c (List.mem_cons_self _ _)
    simp only [noNl, Bool.not_eq_true', Bool.or_eq_false_iff,
      decide_eq_false_iff_not] at hc
    exact takeNlReps_cons_other rest hc.1 hc.2

theorem splitBlocksF_noNl :
    ∀ (s acc : List Char) (fuel : Nat), s.all noNl = true → s.length ≤ fuel →
      splitBlocksF fuel acc s = [acc.reverse ++ s] := by
  intro s
  induction s with
  | nil =>
    intro acc fuel _ _
    cases fuel with
    | zero => simp [splitBlocksF]
    | succ f => simp [splitBlocksF]
  | cons c rest ih =>
    intro acc fuel hall hlen
    cases fuel with
    | zero => simp at hlen
    | succ f =>
      have hc : noNl c = true := (List.all_eq_true.mp hall) c (List.mem_cons_self _ _)
      have hrest : rest.all noNl = true := by
        rw [List.all_eq_true] at hall ⊢
        exact fun x hx => hall x (List.mem_cons_of_mem _ hx)
      simp only [noNl, Bool.not_eq_true', Bool.or_eq_false_iff,
        decide_eq_false_iff_not] at hc
      simp only [splitBlocksF, takeNlReps_cons_other rest hc.1 hc.2]
      rw [if_neg (by simp)]
      rw [ih (c :: acc) f hrest (by simp at hlen; omega)]
      simp

theorem splitBlocksF_sep :
    ∀ (b1 acc : List Char) (fuel : Nat) (b2 : List Char),
      b1.all noNl = true → b2.all noNl = true →
      b1.length + b2.length + 1 ≤ fuel →
      splitBlocksF fuel acc (b1 ++ '\n' :: '\n' :: b2) =
        [acc.reverse ++ b1, ['\n'], b2] := by
  intro b1
  induction b1 with
  | nil =>
    intro acc fuel b2 _ h2 hlen
    cases fuel with
    | zero => simp at hlen
    | succ f =>
      have e1 : takeNlReps ('\n' :: '\n' :: b2) = ([['\n'], ['\n']], b2) := by
        rw [takeNlReps.eq_def]
        simp only [if_pos rfl]
        rw [takeNlReps.eq_def]
        simp [takeNlReps_noNl h2]
      simp only [List.nil_append, splitBlocksF, e1]
      rw [if_pos (by simp)]
      rw [splitBlocksF_noNl b2 [] f h2 (by simp at hlen; omega)]
      simp [lastRep]
  | cons c rest ih =>
    intro acc fuel b2 hall h2 hlen
    cases fuel with
    | zero => simp at hlen
    | succ f =>
      have hc : noNl c = true := (List.all_eq_true.mp hall) c (List.mem_cons_self _ _)
      have hrest : rest.all noNl = true := by
        rw [List.all_eq_true] at hall ⊢
        exact fun x hx => hall x (List.mem_cons_of_mem _ hx)
      simp only [noNl, Bool.not_eq_true', Bool.or_eq_false_iff,
        decide_eq_false_iff_not] at hc
      simp only [List.cons_append, splitBlocksF,
        takeNlReps_cons_other _ hc.1 hc.2]
      norm_num
      rw [ih (c :: acc) f b2 hrest h2 (by simp at hlen ⊢; omega)]
      simp

/-- C8: the full rendering is the concatenation, in source order, of the
renderings of the individual blocks; moreover for two well-separated
blocks the rendering of the whole is the rendering of the first block
followed by the rendering of the second, each depending only on its own
raw text. -/
theorem c8_render_concat :
    (∀ md, renderAll md = listJoin ((blocksOf md).map renderBlock)) ∧
    (∀ b1 b2 : List Char,
      removeFences (b1 ++ '\n' :: '\n' :: b2) = b1 ++ '\n' :: '\n' :: b2 →
      trim (b1 ++ '\n' :: '\n' :: b2) = b1 ++ '\n' :: '\n' :: b2 →
      b1.all noNl = true → b2.all noNl = true →
      blocksOf (b1 ++ '\n' :: '\n' :: b2) = [b1, ['\n'], b2] ∧
      renderAll (b1 ++ '\n' :: '\n' :: b2) = renderBlock b1 ++ renderBlock b2) := by
  refine ⟨fun md => rfl, ?_⟩
  intro b1 b2 hf ht h1 h2
  have hblocks : blocksOf (b1 ++ '\n' :: '\n' :: b2) = [b1, ['\n'], b2] := by
    unfold blocksOf cleanOf
    rw [hf, ht]
    unfold splitBlocks
    rw [splitBlocksF_sep b1 [] _ b2 h1 h2 (by simp [List.length_append]; omega)]
    simp
  refine ⟨hblocks, ?_⟩
  unfold renderAll
  rw [hblocks]
  have hnl : renderBlock ['\n'] = [] := by decide
  simp [listJoin, hnl]

/-- C8 witness: the compositional part applied to the concrete blocks
`# T` and `x`. -/
theorem c8_witness :
    removeFences (chars "# T" ++ '\n' :: '\n' :: chars "x") =
      chars "# T" ++ '\n' :: '\n' :: chars "x" ∧
    trim (chars "# T" ++ '\n' :: '\n' :: chars "x") =
      chars "# T" ++ '\n' :: '\n' :: chars "x" ∧
    renderAll (chars "# T" ++ '\n' :: '\n' :: chars "x") =
      renderBlock (chars "# T") ++ renderBlock (chars "x") :=
  ⟨by decide, by decide,
   (c8_render_concat.2 (chars "# T") (chars "x")
      (by decide) (by decide) (by decide) (by decide)).2⟩

/-- C10 witness: a video file replaces the stored one and clears text and
error; a text file sets the error, drops the previously valid video and
keeps the pasted text. -/
theorem c10_witness :
    handleFileChange ⟨chars "txt", some ⟨chars "old.mp4", chars "video/mp4"⟩, [], [], none, chars "err"⟩
        (some ⟨chars "v.mp4", chars "video/mp4"⟩) =
      { (⟨chars "txt", some ⟨chars "old.mp4", chars "video/mp4"⟩, [], [], none, chars "err"⟩ : AppState) with
          videoFile := some ⟨chars "v.mp4", chars "video/mp4"⟩, mainInput := [], error := [] } ∧
    handleFileChange ⟨chars "keep", some ⟨chars "old.mp4", chars "video/mp4"⟩, [], [], none, []⟩
        (some ⟨chars "a.txt", chars "text/plain"⟩) =
      { (⟨chars "keep", some ⟨chars "old.mp4", chars "video/mp4"⟩, [], [], none, []⟩ : AppState) with
          error := unsupportedFileMsg, videoFile := none } :=
  ⟨(c10_file_selection _ _).1 (by decide), (c10_file_selection _ _).2 (by decide)⟩

end Tuby



